import Mathlib

/-!
Verification of the analytics core of a fitness-dashboard repository.

The relevant Python functions are embedded shallowly:

* floating-point columns become `Option ℚ` (with `none` playing the role of
  NaN produced by `pd.to_numeric(..., errors="coerce")` / `safe_float`);
* dataframes become lists of records; calendar dates become `ℤ`
  (days since an epoch chosen so that day 0 is a Monday, matching
  2024-01-01, the fixed start date used by the personal-records page);
* pandas operations (`dropna`, `groupby(...).sum()`, `rolling`, `resample`,
  `idxmin` / `idxmax`, `shift(-1)`) are translated operation by operation.

Where a claim compares the code against the behaviour the specification
describes, a second definition with a `spec_` prefix transcribes the
specification wording; all other definitions are translated from the source.
-/

/-! ## Record normalizer: pace (data_processing.process_general_activities_df
lines 391-393 and process_activities_df lines 45-48)

The source computes `duration_minutes = duration_seconds / 60`,
`distance_km = distance_meters / 1000`, sets `pace_min_per_km` to NaN and
then fills `duration_minutes / distance_km` exactly on the mask
`(distance_km > 0) & (duration_minutes > 0)`.  A NaN operand makes the mask
comparison false, which the `Option` match reproduces. -/

def pace_min_per_km (duration_seconds distance_meters : Option ℚ) : Option ℚ :=
  match duration_seconds, distance_meters with
  | some dur, some dist =>
    if 0 < dist / 1000 ∧ 0 < dur / 60 then some ((dur / 60) / (dist / 1000)) else none
  | _, _ => none

lemma div_thousand_pos_iff (a : ℚ) : 0 < a / 1000 ↔ 0 < a := by
  constructor
  · intro h
    by_contra hab
    push_neg at hab
    have : a / 1000 ≤ 0 := div_nonpos_of_nonpos_of_nonneg hab (by norm_num)
    linarith
  · intro h
    exact div_pos h (by norm_num)

lemma div_sixty_pos_iff (a : ℚ) : 0 < a / 60 ↔ 0 < a := by
  constructor
  · intro h
    by_contra hab
    push_neg at hab
    have : a / 60 ≤ 0 := div_nonpos_of_nonpos_of_nonneg hab (by norm_num)
    linarith
  · intro h
    exact div_pos h (by norm_num)

/-- Claim C1: for every normalized activity, `pace_min_per_km` is present iff
`distance_meters > 0` and `duration_seconds > 0`, and when present it equals
`duration_minutes / distance_km` exactly and is strictly positive (never zero
or negative); otherwise it is absent. -/
theorem c1_pace_present_iff_positive (dur dist : Option ℚ) :
    ((pace_min_per_km dur dist).isSome ↔
      (∃ dm, dist = some dm ∧ 0 < dm) ∧ (∃ ds, dur = some ds ∧ 0 < ds)) ∧
    ∀ p, pace_min_per_km dur dist = some p →
      ∃ ds dm, dur = some ds ∧ dist = some dm ∧
        p = (ds / 60) / (dm / 1000) ∧ 0 < p := by
  constructor
  · cases dur with
    | none => simp [pace_min_per_km]
    | some ds =>
      cases dist with
      | none => simp [pace_min_per_km]
      | some dm =>
        simp only [pace_min_per_km]
        split_ifs with h
        · refine iff_of_true (by simp) ?_
          exact ⟨⟨dm, rfl, (div_thousand_pos_iff dm).mp h.1⟩,
                 ⟨ds, rfl, (div_sixty_pos_iff ds).mp h.2⟩⟩
        · refine iff_of_false (by simp) ?_
          rintro ⟨⟨dm2, hdm2, hdm2pos⟩, ds2, hds2, hds2pos⟩
          rw [Option.some_inj] at hdm2 hds2
          subst hdm2
          subst hds2
          exact h ⟨(div_thousand_pos_iff dm).mpr hdm2pos, (div_sixty_pos_iff ds).mpr hds2pos⟩
  · intro p hp
    cases dur with
    | none => simp [pace_min_per_km] at hp
    | some ds =>
      cases dist with
      | none => simp [pace_min_per_km] at hp
      | some dm =>
        simp only [pace_min_per_km] at hp
        split_ifs at hp with h
        rw [Option.some_inj] at hp
        exact ⟨ds, dm, rfl, rfl, hp.symm, hp ▸ div_pos h.2 h.1⟩

/-- Witness for C1 at a 25-minute 4 km run: pace present and equal to 6.25. -/
theorem c1_pace_witness :
    ∃ ds dm, (some (1500 : ℚ)) = some ds ∧ (some (4000 : ℚ)) = some dm ∧
      (25 / 4 : ℚ) = (ds / 60) / (dm / 1000) ∧ (0 : ℚ) < 25 / 4 :=
  (c1_pace_present_iff_positive (some 1500) (some 4000)).2 (25 / 4) (by norm_num [pace_min_per_km])

/-! ## Wellness aggregation of the stress sentinel
(P0_Dashboard_Summary.py lines 172-177)

`avg_Stress=("averageStressLevel", lambda x: x[x != -1].mean() if not
x[x != -1].empty else np.nan)`.  The pandas filter `x[x != -1]` keeps NaN
entries (NaN != -1 holds elementwise) and `.mean()` then skips NaN, so the
embedding first filters out the literal sentinel and then drops the absent
values. -/

def avg_Stress (xs : List (Option ℚ)) : Option ℚ :=
  let kept := xs.filter (fun o => decide (o ≠ some (-1)))
  if kept.isEmpty then none
  else
    let vs := kept.filterMap id
    if vs.isEmpty then none
    else some (vs.sum / vs.length)

/-- The period values that are present and differ from the `-1` sentinel. -/
def presentNonSentinel (xs : List (Option ℚ)) : List ℚ :=
  (xs.filterMap id).filter (fun v => decide (v ≠ -1))

lemma kept_filterMap_eq (xs : List (Option ℚ)) :
    (xs.filter (fun o => decide (o ≠ some (-1)))).filterMap id = presentNonSentinel xs := by
  simp only [presentNonSentinel]
  induction xs with
  | nil => rfl
  | cons o t ih =>
    cases o with
    | none => simpa using ih
    | some v =>
      by_cases hv : v = (-1 : ℚ)
      · subst hv
        simpa using ih
      · simp [hv, List.filter_cons, List.filterMap_cons]
        simpa using ih

/-- Claim C5: daily `averageStressLevel` values equal to the sentinel `-1`
never contribute to `avg_Stress`: when any non-sentinel value is present the
aggregate is the mean over exactly the present values different from `-1`,
and when every value of the period is the sentinel the aggregate is absent. -/
theorem c5_stress_sentinel_excluded (xs : List (Option ℚ)) :
    (presentNonSentinel xs ≠ [] →
      avg_Stress xs =
        some ((presentNonSentinel xs).sum / (presentNonSentinel xs).length)) ∧
    ((∀ o ∈ xs, o = some (-1)) → avg_Stress xs = none) := by
  constructor
  · intro hne
    have hk := kept_filterMap_eq xs
    have hkept : (xs.filter (fun o => decide (o ≠ some (-1)))) ≠ [] := by
      intro h0
      rw [h0] at hk
      exact hne (by simpa using hk.symm)
    have hvs : (xs.filter (fun o => decide (o ≠ some (-1)))).filterMap id ≠ [] := by
      rw [hk]; exact hne
    simp only [avg_Stress]
    rw [if_neg (by simpa [List.isEmpty_iff] using hkept),
        if_neg (by simpa [List.isEmpty_iff] using hvs), hk]
  · intro hall
    have hkept : (xs.filter (fun o => decide (o ≠ some (-1)))) = [] := by
      rw [List.filter_eq_nil_iff]
      intro a ha
      simp [hall a ha]
    simp only [avg_Stress]
    rw [if_pos (by simpa [List.isEmpty_iff] using hkept)]

/-- Witness for C5 at the spec example `[-1, 40, 60]`: the mean is 50, not 33. -/
theorem c5_stress_witness :
    avg_Stress [some (-1), some 40, some 60] = some 50 := by
  have h := (c5_stress_sentinel_excluded [some (-1), some 40, some 60]).1 (by decide)
  have h2 : presentNonSentinel [some (-1), some 40, some 60] = [40, 60] := by decide
  rw [h, h2]
  norm_num [List.sum_cons, List.sum_nil]

/-! ## Correlation engine (4_Correlations.py create_correlation_plot,
lines 105-150)

A daily row contributes the pair `(x, y)`; with `y_col_is_next_day` the y
series is `shift(-1)`, pairing each x with the following row of the
calendar-sorted table and making the last y absent.  The function drops the
rows where either column is NaN, and only when at least 2 rows remain does it
draw the trendline and print the Pearson coefficient together with the point
count; otherwise no coefficient is produced. -/

def shiftNextDay : List (Option ℚ × Option ℚ) → List (Option ℚ × Option ℚ)
  | [] => []
  | [p] => [(p.1, none)]
  | p :: q :: rest => (p.1, q.2) :: shiftNextDay (q :: rest)

def pairFn (p : Option ℚ × Option ℚ) : Option (ℚ × ℚ) :=
  match p with
  | (some x, some y) => some (x, y)
  | _ => none

def correlation_data (rows : List (Option ℚ × Option ℚ)) (nextDay : Bool) : List (ℚ × ℚ) :=
  (if nextDay then shiftNextDay rows else rows).filterMap pairFn

/-- Number of rows of the (possibly shifted) table where both metrics are present. -/
def pairedCount (rows : List (Option ℚ × Option ℚ)) (nextDay : Bool) : ℕ :=
  ((if nextDay then shiftNextDay rows else rows).filter
    (fun p => p.1.isSome && p.2.isSome)).length

/-- The plotted result: the reported point count and the paired points from
which Pearson r is computed, or `none` when fewer than 2 pairs remain. -/
def create_correlation_plot (rows : List (Option ℚ × Option ℚ)) (nextDay : Bool) :
    Option (ℕ × List (ℚ × ℚ)) :=
  let d := correlation_data rows nextDay
  if 2 ≤ d.length then some (d.length, d) else none

lemma filterMap_pairFn_length (l : List (Option ℚ × Option ℚ)) :
    (l.filterMap pairFn).length =
      (l.filter (fun p => p.1.isSome && p.2.isSome)).length := by
  induction l with
  | nil => rfl
  | cons p t ih =>
    obtain ⟨x, y⟩ := p
    cases x with
    | none => simpa [pairFn, List.filterMap_cons, List.filter_cons] using ih
    | some a =>
      cases y with
      | none => simpa [pairFn, List.filterMap_cons, List.filter_cons] using ih
      | some b => simpa [pairFn, List.filterMap_cons, List.filter_cons] using ih

/-- Claim C9: the correlation engine drops every row where either the x value
or the (possibly next-day-shifted) y value is missing, reports the pair count
after dropping, and refuses to produce a Pearson coefficient when fewer than
2 paired points remain. -/
theorem c9_correlation_refuses_small_samples (rows : List (Option ℚ × Option ℚ))
    (nextDay : Bool) :
    (create_correlation_plot rows nextDay = none ↔ pairedCount rows nextDay < 2) ∧
    ∀ n pts, create_correlation_plot rows nextDay = some (n, pts) →
      n = pairedCount rows nextDay ∧ 2 ≤ n ∧
      ∀ q ∈ pts, ∃ p ∈ (if nextDay then shiftNextDay rows else rows),
        p.1 = some q.1 ∧ p.2 = some q.2 := by
  have hlen : (correlation_data rows nextDay).length = pairedCount rows nextDay :=
    filterMap_pairFn_length _
  constructor
  · simp only [create_correlation_plot]
    split_ifs with h
    · exact iff_of_false (by simp) (by omega)
    · exact iff_of_true rfl (by omega)
  · intro n pts hsome
    simp only [create_correlation_plot] at hsome
    split_ifs at hsome with h
    · rw [Option.some_inj] at hsome
      have hn := congrArg Prod.fst hsome
      have hpts := congrArg Prod.snd hsome
      simp only at hn hpts
      refine ⟨by omega, by omega, ?_⟩
      intro q hq
      rw [← hpts] at hq
      simp only [correlation_data] at hq
      obtain ⟨p, hp, hfp⟩ := List.mem_filterMap.mp hq
      refine ⟨p, hp, ?_⟩
      obtain ⟨x, y⟩ := p
      cases x with
      | none => simp [pairFn] at hfp
      | some a =>
        cases y with
        | none => simp [pairFn] at hfp
        | some b =>
          simp only [pairFn, Option.some_inj] at hfp
          cases hfp
          exact ⟨rfl, rfl⟩

/-- Witness for C9: two fully-present rows give a result whose reported count
is the paired-row count 2. -/
theorem c9_correlation_witness :
    (2 : ℕ) = pairedCount [(some 1, some 2), (some 3, some 4)] false ∧ 2 ≤ 2 ∧
    ∀ q ∈ [((1 : ℚ), (2 : ℚ)), (3, 4)],
      ∃ p ∈ (if false then shiftNextDay [(some 1, some 2), (some 3, some 4)]
             else [(some 1, some 2), (some 3, some 4)]),
        p.1 = some q.1 ∧ p.2 = some q.2 :=
  (c9_correlation_refuses_small_samples [(some 1, some 2), (some 3, some 4)] false).2
    2 [(1, 2), (3, 4)] (by decide)

/-! ## Training load calculator (data_processing.calculate_custom_training_load,
lines 257-295)

The function first restricts to the rows where both `duration_minutes` and
`avgHR` are present (`dropna(subset=["duration_minutes", "avgHR"])`) — this
happens before any method branch.  It then computes a per-activity
`custom_load` according to the selected method and aggregates it with
`groupby("date")["custom_load"].sum()`, which yields one row per distinct
date, sorted ascending.  `pd.notna` always holds of the zone-minute columns
(the normalizer zero-fills them), so the `trimp_edwards` branch is a plain
weighted sum. -/

structure ZoneMinutes where
  z1 : ℚ
  z2 : ℚ
  z3 : ℚ
  z4 : ℚ
  z5 : ℚ
deriving DecidableEq

def ZoneMinutes.zero : ZoneMinutes := ⟨0, 0, 0, 0, 0⟩

def ZoneMinutes.add (a b : ZoneMinutes) : ZoneMinutes :=
  ⟨a.z1 + b.z1, a.z2 + b.z2, a.z3 + b.z3, a.z4 + b.z4, a.z5 + b.z5⟩

structure LoadAct where
  date : ℤ
  duration_minutes : Option ℚ
  avgHR : Option ℚ
  aerobicTrainingEffect : Option ℚ
  zones : ZoneMinutes
deriving DecidableEq

def trimp_edwards_score (z : ZoneMinutes) : ℚ :=
  z.z1 * 1 + z.z2 * 2 + z.z3 * 3 + z.z4 * 4 + z.z5 * 5

/-- pandas `groupby(fst).sum()` over (date, load) pairs: one row per distinct
date (ascending), carrying the sum of the loads with that date. -/
def groupSum (ps : List (ℤ × ℚ)) : List (ℤ × ℚ) :=
  (List.insertionSort (· ≤ ·) ((ps.map Prod.fst).dedup)).map
    (fun d => (d, ((ps.filter (fun p => decide (p.1 = d))).map Prod.snd).sum))

lemma mem_groupSum (ps : List (ℤ × ℚ)) (d : ℤ) (v : ℚ) :
    (d, v) ∈ groupSum ps ↔
      (∃ p ∈ ps, p.1 = d) ∧
        v = ((ps.filter (fun p => decide (p.1 = d))).map Prod.snd).sum := by
  unfold groupSum
  rw [List.mem_map]
  constructor
  · rintro ⟨d2, hd2, heq⟩
    have h1 := congrArg Prod.fst heq
    have h2 := congrArg Prod.snd heq
    simp only at h1 h2
    subst h1
    refine ⟨?_, h2.symm⟩
    have hmem : d2 ∈ (ps.map Prod.fst).dedup :=
      ((List.perm_insertionSort (· ≤ ·) _).mem_iff).mp hd2
    rw [List.mem_dedup] at hmem
    obtain ⟨p, hp, hpd⟩ := List.mem_map.mp hmem
    exact ⟨p, hp, hpd⟩
  · rintro ⟨⟨p, hp, hpd⟩, hv⟩
    refine ⟨d, ?_, ?_⟩
    · apply ((List.perm_insertionSort (· ≤ ·) _).mem_iff).mpr
      rw [List.mem_dedup]
      exact List.mem_map.mpr ⟨p, hp, hpd⟩
    · rw [hv]

def calculate_custom_training_load (acts : List LoadAct) (method : String) :
    List (ℤ × ℚ) :=
  let load_df := acts.filter (fun a => a.duration_minutes.isSome && a.avgHR.isSome)
  if method = "trimp_edwards" then
    groupSum (load_df.map (fun a => (a.date, trimp_edwards_score a.zones)))
  else if method = "aerobic_te_sum" then
    groupSum (load_df.map (fun a => (a.date, a.aerobicTrainingEffect.getD 0)))
  else
    groupSum (load_df.map (fun a => (a.date, a.duration_minutes.getD 0 * a.avgHR.getD 0)))

/-- Transcribed from the specification wording for `aerobic_te_sum`:
per-activity load is `aerobic_training_effect` (0 if absent) for EVERY
activity — no activity is dropped — and the daily load is the sum. -/
def spec_aerobic_te_sum (acts : List LoadAct) : List (ℤ × ℚ) :=
  groupSum (acts.map (fun a => (a.date, a.aerobicTrainingEffect.getD 0)))

/-- Counterexample to claim C6: an activity on day 0 with aerobic training
effect 3 but an absent average heart rate is dropped by the shared
`dropna(subset=["duration_minutes", "avgHR"])`, so the code returns an empty
daily series even though the claim says the activity still contributes. -/
theorem c6_counterexample :
    calculate_custom_training_load
      [⟨0, some 30, none, some 3, ZoneMinutes.zero⟩] ("aerobic_te_sum") = [] ∧
    spec_aerobic_te_sum [⟨0, some 30, none, some 3, ZoneMinutes.zero⟩] = [(0, 3)] ∧
    calculate_custom_training_load
        [⟨0, some 30, none, some 3, ZoneMinutes.zero⟩] ("aerobic_te_sum") ≠
      spec_aerobic_te_sum [⟨0, some 30, none, some 3, ZoneMinutes.zero⟩] := by
  have h1 : calculate_custom_training_load
      [⟨0, some 30, none, some 3, ZoneMinutes.zero⟩] ("aerobic_te_sum") = [] := rfl
  have h2 : spec_aerobic_te_sum [⟨0, some 30, none, some 3, ZoneMinutes.zero⟩] =
      [((0 : ℤ), ([(3 : ℚ)]).sum)] := rfl
  refine ⟨h1, ?_, ?_⟩
  · rw [h2]
    simp
  · rw [h1, h2]
    simp

/-- Claim C6 (amended): under `aerobic_te_sum` the daily series ranges over
exactly the days with at least one activity having BOTH duration and average
heart rate present, and each daily value is the sum of
`aerobicTrainingEffect` (0 if absent) over that day's surviving activities;
activities missing duration or average HR are dropped entirely. -/
theorem c6_aerobic_te_daily_sum (acts : List LoadAct) (d : ℤ) (v : ℚ) :
    (d, v) ∈ calculate_custom_training_load acts ("aerobic_te_sum") ↔
      (∃ a ∈ acts, a.duration_minutes.isSome = true ∧ a.avgHR.isSome = true ∧
        a.date = d) ∧
      v = ((acts.filter (fun a =>
              (a.duration_minutes.isSome && a.avgHR.isSome) && decide (a.date = d))).map
            (fun a => a.aerobicTrainingEffect.getD 0)).sum := by
  have hbr : calculate_custom_training_load acts ("aerobic_te_sum") =
      groupSum ((acts.filter
          (fun a => a.duration_minutes.isSome && a.avgHR.isSome)).map
        (fun a => (a.date, a.aerobicTrainingEffect.getD 0))) := by
    unfold calculate_custom_training_load
    rw [if_neg (by decide), if_pos rfl]
  have hmaps : ((((acts.filter
          (fun a => a.duration_minutes.isSome && a.avgHR.isSome)).map
        (fun a => (a.date, a.aerobicTrainingEffect.getD 0))).filter
          (fun p => decide (p.1 = d))).map Prod.snd)
      = ((acts.filter (fun a =>
          (a.duration_minutes.isSome && a.avgHR.isSome) && decide (a.date = d))).map
        (fun a => a.aerobicTrainingEffect.getD 0)) := by
    rw [List.filter_map, List.map_map, List.filter_filter]
    have hpred : (fun a : LoadAct =>
        ((fun p : ℤ × ℚ => decide (p.1 = d)) ∘
          fun a => (a.date, a.aerobicTrainingEffect.getD 0)) a &&
          (a.duration_minutes.isSome && a.avgHR.isSome))
        = (fun a : LoadAct =>
          (a.duration_minutes.isSome && a.avgHR.isSome) && decide (a.date = d)) := by
      funext a
      simp [Function.comp, Bool.and_comm]
    rw [hpred]
    rfl
  rw [hbr, mem_groupSum, hmaps]
  constructor
  · rintro ⟨⟨p, hp, hpd⟩, hv⟩
    obtain ⟨a, ha, hfa⟩ := List.mem_map.mp hp
    rw [List.mem_filter] at ha
    obtain ⟨haacts, hcond⟩ := ha
    rw [Bool.and_eq_true] at hcond
    refine ⟨⟨a, haacts, hcond.1, hcond.2, ?_⟩, hv⟩
    rw [← hpd, ← hfa]
  · rintro ⟨⟨a, ha, hdur, hhr, hdate⟩, hv⟩
    refine ⟨⟨(a.date, a.aerobicTrainingEffect.getD 0), ?_, hdate⟩, hv⟩
    apply List.mem_map.mpr
    refine ⟨a, ?_, rfl⟩
    rw [List.mem_filter]
    exact ⟨ha, by rw [Bool.and_eq_true]; exact ⟨hdur, hhr⟩⟩

/-- Witness for C6 (amended): one activity with duration, HR and aerobic
training effect 5 present on day 0 yields the daily entry (0, 5). -/
theorem c6_aerobic_te_witness :
    ((0 : ℤ), (5 : ℚ)) ∈ calculate_custom_training_load
      [⟨0, some 30, some 150, some 5, ZoneMinutes.zero⟩] ("aerobic_te_sum") := by
  refine (c6_aerobic_te_daily_sum _ 0 5).mpr
    ⟨⟨⟨0, some 30, some 150, some 5, ZoneMinutes.zero⟩,
      List.mem_cons_self _ _, rfl, rfl, rfl⟩, ?_⟩
  have h : ([(⟨0, some 30, some 150, some 5, ZoneMinutes.zero⟩ : LoadAct)].filter
      (fun a => (a.duration_minutes.isSome && a.avgHR.isSome) && decide (a.date = 0))).map
      (fun a => a.aerobicTrainingEffect.getD 0) = [5] := by decide
  rw [h]
  simp

/-- The basic fallback load, written out as the claim describes it:
per-activity load `duration_minutes * avgHR`, over the activities having both
operands, summed per day. -/
def duration_hr_basic (acts : List LoadAct) : List (ℤ × ℚ) :=
  groupSum ((acts.filter
      (fun a => a.duration_minutes.isSome && a.avgHR.isSome)).map
    (fun a => (a.date, a.duration_minutes.getD 0 * a.avgHR.getD 0)))

/-- Claim C10: every method string other than `trimp_edwards` and
`aerobic_te_sum` — including the default `trimp_exp` and any misspelling —
raises no error and silently computes the basic duration-times-HR daily load. -/
theorem c10_unknown_method_is_basic (acts : List LoadAct) (method : String)
    (h1 : method ≠ "trimp_edwards") (h2 : method ≠ "aerobic_te_sum") :
    calculate_custom_training_load acts method = duration_hr_basic acts := by
  unfold calculate_custom_training_load duration_hr_basic
  rw [if_neg h1, if_neg h2]

/-- Witness for C10: both the default method name and a misspelled one fall
through to the basic duration-times-HR load. -/
theorem c10_unknown_method_witness :
    calculate_custom_training_load
        [⟨0, some 30, some 150, none, ZoneMinutes.zero⟩] ("trimp_exp") =
      duration_hr_basic [⟨0, some 30, some 150, none, ZoneMinutes.zero⟩] ∧
    calculate_custom_training_load
        [⟨0, some 30, some 150, none, ZoneMinutes.zero⟩] ("aerobic_te_sun") =
      duration_hr_basic [⟨0, some 30, some 150, none, ZoneMinutes.zero⟩] :=
  ⟨c10_unknown_method_is_basic _ ("trimp_exp") (by decide) (by decide),
   c10_unknown_method_is_basic _ ("aerobic_te_sun") (by decide) (by decide)⟩

/-! ## Rolling acute/chronic load and ACWR (3_Training_Load.py lines 47-50)

The page sorts the daily series by date and computes
`rolling(window=7, min_periods=1).mean()` and
`rolling(window=28, min_periods=7).mean()` on the `custom_load` column.
`window=7` is an INTEGER window: it spans the trailing 7 ROWS of the series,
not 7 calendar days, and `min_periods` counts rows as well.  The window at
row `i` of a series `xs` is therefore the last `min (i+1) w` entries. -/

def windowAt (w : ℕ) (xs : List ℚ) (i : ℕ) : List ℚ :=
  (xs.take (i + 1)).drop (i + 1 - w)

def rollingMeanAt (w minp : ℕ) (xs : List ℚ) (i : ℕ) : Option ℚ :=
  if (windowAt w xs i).length < minp then none
  else some ((windowAt w xs i).sum / (windowAt w xs i).length)

def acute_load_7d (xs : List ℚ) (i : ℕ) : Option ℚ := rollingMeanAt 7 1 xs i

def chronic_load_28d (xs : List ℚ) (i : ℕ) : Option ℚ := rollingMeanAt 28 7 xs i

/-- Transcribed from the specification wording: the rolling window ranges
over the CALENDAR — at the row with date `d` it holds the observed rows whose
date lies within the trailing `wDays` calendar days `(d - wDays, d]` — while
`min_periods` counts observed data points inside that window. -/
def spec_calendar_rolling (wDays : ℤ) (minp : ℕ) (ps : List (ℤ × ℚ)) (i : ℕ) :
    Option ℚ :=
  match ps[i]? with
  | none => none
  | some p =>
    let win := (ps.take (i + 1)).filter (fun q => decide (p.1 - wDays < q.1 ∧ q.1 ≤ p.1))
    if win.length < minp then none
    else some ((win.map Prod.snd).sum / win.length)

/-- Counterexample to claim C2: a daily series with loads 10 and 30 observed
10 calendar days apart.  The code averages the last 7 ROWS, so both rows fall
in the window and the acute value at the second row is 20; a trailing
7-calendar-day window contains only the second row, giving 30. -/
theorem c2_counterexample :
    acute_load_7d [10, 30] 1 = some 20 ∧
    spec_calendar_rolling 7 1 [(0, 10), (10, 30)] 1 = some 30 ∧
    (some (20 : ℚ)) ≠ some 30 := by
  refine ⟨?_, ?_, by norm_num⟩
  · have h : acute_load_7d [10, 30] 1 =
        some (([(10 : ℚ), 30]).sum / ((2 : ℕ) : ℚ)) := rfl
    rw [h]
    norm_num [List.sum_cons, List.sum_nil]
  · have h : spec_calendar_rolling 7 1 [(0, 10), (10, 30)] 1 =
        some (([(30 : ℚ)]).sum / ((1 : ℕ) : ℚ)) := rfl
    rw [h]
    norm_num [List.sum_cons, List.sum_nil]

lemma windowAt_length (w : ℕ) (xs : List ℚ) (i : ℕ) (h : i < xs.length) :
    (windowAt w xs i).length = min (i + 1) w := by
  simp only [windowAt, List.length_drop, List.length_take]
  omega

/-- Claim C2 (amended): `acute_7d` is the trailing mean of the last
`min (i+1) 7` OBSERVED rows (so `min_periods=1` makes it defined from the
first row on), and `chronic_28d` ranges over the last `min (i+1) 28` observed
rows and is undefined exactly while fewer than 7 samples exist; the windows
count rows of the daily series, skipping absent calendar days entirely. -/
theorem c2_rolling_counts_rows (xs : List ℚ) (i : ℕ) (h : i < xs.length) :
    acute_load_7d xs i =
      some ((windowAt 7 xs i).sum / ((min (i + 1) 7 : ℕ) : ℚ)) ∧
    (windowAt 7 xs i).length = min (i + 1) 7 ∧
    (windowAt 28 xs i).length = min (i + 1) 28 ∧
    (chronic_load_28d xs i = none ↔ i + 1 < 7) := by
  have h7 := windowAt_length 7 xs i h
  have h28 := windowAt_length 28 xs i h
  refine ⟨?_, h7, h28, ?_⟩
  · unfold acute_load_7d rollingMeanAt
    rw [if_neg (by omega), h7]
  · unfold chronic_load_28d rollingMeanAt
    constructor
    · intro hnone
      by_cases hc : (windowAt 28 xs i).length < 7
      · omega
      · rw [if_neg hc] at hnone
        exact absurd hnone (by simp)
    · intro hlt
      rw [if_pos (by omega)]

/-- Witness for C2: with 3 observed rows, acute is defined at the last row
(value 2 for loads 1, 2, 3) while chronic is undefined since 3 < 7. -/
theorem c2_rolling_witness :
    acute_load_7d [1, 2, 3] 2 = some 2 ∧
    (chronic_load_28d [1, 2, 3] 2 = none ↔ 2 + 1 < 7) := by
  have h := c2_rolling_counts_rows [1, 2, 3] 2 (by norm_num)
  refine ⟨?_, h.2.2.2⟩
  rw [h.1]
  have hw : windowAt 7 [1, 2, 3] 2 = [1, 2, 3] := rfl
  rw [hw]
  norm_num [List.sum_cons, List.sum_nil]

/-! ## ACWR (3_Training_Load.py line 50)

`acwr = (acute / chronic).fillna(0)`.  Pandas float division produces NaN for
`x / NaN` and `0 / 0`, and plus-or-minus infinity for `x / 0` with `x` nonzero;
`fillna(0)` replaces only NaN, not infinity.  `FVal` models this arithmetic
over exact rationals. -/

inductive FVal where
  | nan : FVal
  | posInf : FVal
  | negInf : FVal
  | fin : ℚ → FVal
deriving DecidableEq

def FVal.ofOpt : Option ℚ → FVal
  | none => FVal.nan
  | some x => FVal.fin x

def FVal.div : FVal → FVal → FVal
  | FVal.nan, _ => FVal.nan
  | _, FVal.nan => FVal.nan
  | FVal.fin a, FVal.fin b =>
    if b = 0 then (if a = 0 then FVal.nan else if 0 < a then FVal.posInf else FVal.negInf)
    else FVal.fin (a / b)
  | FVal.posInf, FVal.fin b => if 0 ≤ b then FVal.posInf else FVal.negInf
  | FVal.negInf, FVal.fin b => if 0 ≤ b then FVal.negInf else FVal.posInf
  | FVal.fin _, FVal.posInf => FVal.fin 0
  | FVal.fin _, FVal.negInf => FVal.fin 0
  | FVal.posInf, FVal.posInf => FVal.nan
  | FVal.posInf, FVal.negInf => FVal.nan
  | FVal.negInf, FVal.posInf => FVal.nan
  | FVal.negInf, FVal.negInf => FVal.nan

def FVal.fillna0 : FVal → FVal
  | FVal.nan => FVal.fin 0
  | v => v

def acwr (xs : List ℚ) (i : ℕ) : FVal :=
  FVal.fillna0
    (FVal.div (FVal.ofOpt (acute_load_7d xs i)) (FVal.ofOpt (chronic_load_28d xs i)))

lemma fval_div_nan (x : FVal) : FVal.div x FVal.nan = FVal.nan := by
  cases x <;> rfl

lemma windowAt_subset (w : ℕ) (xs : List ℚ) (i : ℕ) :
    ∀ x ∈ windowAt w xs i, x ∈ xs := by
  intro x hx
  exact List.take_subset _ _ (List.drop_subset _ _ hx)

lemma window7_subset_window28 (xs : List ℚ) (i : ℕ) :
    ∀ x ∈ windowAt 7 xs i, x ∈ windowAt 28 xs i := by
  intro x hx
  unfold windowAt at *
  have h2 : (xs.take (i + 1)).drop (i + 1 - 7)
      = ((xs.take (i + 1)).drop (i + 1 - 28)).drop ((i + 1 - 7) - (i + 1 - 28)) := by
    rw [List.drop_drop]
    congr 1
    omega
  rw [h2] at hx
  exact List.drop_subset _ _ hx

lemma sum_zero_of_nonneg (l : List ℚ) (hnn : ∀ x ∈ l, 0 ≤ x) (hs : l.sum = 0) :
    ∀ x ∈ l, x = 0 := by
  induction l with
  | nil =>
    intro x hx
    simp at hx
  | cons a t ih =>
    rw [List.sum_cons] at hs
    have hts : 0 ≤ t.sum :=
      List.sum_nonneg (fun x hx => hnn x (List.mem_cons_of_mem a hx))
    have ha0 : 0 ≤ a := hnn a (List.mem_cons_self a t)
    intro x hx
    rcases List.mem_cons.mp hx with rfl | hx2
    · linarith
    · exact ih (fun y hy => hnn y (List.mem_cons_of_mem a hy)) (by linarith) x hx2

/-- Counterexample to claim C3: daily loads `[-7, 0, 0, 0, 0, 0, 0, 7]` give,
at the last row, a chronic mean of exactly 0 and an acute mean of 1; the code
computes `1 / 0`, which is +infinity in pandas, and `fillna(0)` does not
replace infinity — so `acwr` is +infinity, not 0, while chronic is zero. -/
theorem c3_counterexample :
    chronic_load_28d [-7, 0, 0, 0, 0, 0, 0, 7] 7 = some 0 ∧
    acwr [-7, 0, 0, 0, 0, 0, 0, 7] 7 = FVal.posInf ∧
    FVal.posInf ≠ FVal.fin 0 := by
  have hch : chronic_load_28d [-7, 0, 0, 0, 0, 0, 0, 7] 7 = some 0 := by
    have h : chronic_load_28d [-7, 0, 0, 0, 0, 0, 0, 7] 7 =
        some (([(-7 : ℚ), 0, 0, 0, 0, 0, 0, 7]).sum / ((8 : ℕ) : ℚ)) := rfl
    rw [h]
    norm_num [List.sum_cons, List.sum_nil]
  have hac : acute_load_7d [-7, 0, 0, 0, 0, 0, 0, 7] 7 = some 1 := by
    have h : acute_load_7d [-7, 0, 0, 0, 0, 0, 0, 7] 7 =
        some (([(0 : ℚ), 0, 0, 0, 0, 0, 7]).sum / ((7 : ℕ) : ℚ)) := rfl
    rw [h]
    norm_num [List.sum_cons, List.sum_nil]
  refine ⟨hch, ?_, by simp⟩
  unfold acwr
  rw [hch, hac]
  norm_num [FVal.ofOpt, FVal.div, FVal.fillna0]

/-- Claim C3 (amended): `acwr` equals `acute_7d / chronic_28d` with NaN
replaced by 0.  It is 0 whenever chronic is undefined, and whenever chronic
is zero PROVIDED the daily loads are nonnegative (then acute is also zero and
0/0 is NaN); when chronic is a nonzero value the ratio is the exact quotient.
(With a negative load in the series, chronic can be zero while acute is not,
and `acwr` is then an infinity, which `fillna(0)` does not replace.) -/
theorem c3_acwr_zero_when_chronic_missing (xs : List ℚ) (i : ℕ) (h : i < xs.length) :
    (chronic_load_28d xs i = none → acwr xs i = FVal.fin 0) ∧
    ((∀ x ∈ xs, 0 ≤ x) → chronic_load_28d xs i = some 0 → acwr xs i = FVal.fin 0) ∧
    (∀ a c, acute_load_7d xs i = some a → chronic_load_28d xs i = some c → c ≠ 0 →
      acwr xs i = FVal.fin (a / c)) := by
  refine ⟨?_, ?_, ?_⟩
  · intro hn
    unfold acwr
    rw [hn]
    have hofn : FVal.ofOpt (none : Option ℚ) = FVal.nan := rfl
    rw [hofn, fval_div_nan]
    rfl
  · intro hnn hz
    have hlen7 : (windowAt 7 xs i).length = min (i + 1) 7 := windowAt_length 7 xs i h
    have hlen28 : (windowAt 28 xs i).length = min (i + 1) 28 := windowAt_length 28 xs i h
    have hsum28 : (windowAt 28 xs i).sum = 0 := by
      unfold chronic_load_28d rollingMeanAt at hz
      split_ifs at hz with hlt
      rw [Option.some_inj] at hz
      have hlenne : ((windowAt 28 xs i).length : ℚ) ≠ 0 := by
        rw [hlen28]
        exact_mod_cast (by omega : min (i + 1) 28 ≠ 0)
      rcases div_eq_zero_iff.mp hz with hs | hs
      · exact hs
      · exact absurd hs hlenne
    have hall : ∀ x ∈ windowAt 28 xs i, x = 0 :=
      sum_zero_of_nonneg _ (fun x hx => hnn x (windowAt_subset 28 xs i x hx)) hsum28
    have hsum7 : (windowAt 7 xs i).sum = 0 :=
      List.sum_eq_zero (fun x hx => hall x (window7_subset_window28 xs i x hx))
    have hac : acute_load_7d xs i = some 0 := by
      unfold acute_load_7d rollingMeanAt
      rw [if_neg (by omega), hsum7, zero_div]
    unfold acwr
    rw [hac, hz]
    norm_num [FVal.ofOpt, FVal.div, FVal.fillna0]
  · intro a c ha hc hcne
    unfold acwr
    rw [ha, hc]
    have hdiv : FVal.div (FVal.fin a) (FVal.fin c) = FVal.fin (a / c) := by
      simp only [FVal.div]
      rw [if_neg hcne]
    have hof1 : FVal.ofOpt (some a) = FVal.fin a := rfl
    have hof2 : FVal.ofOpt (some c) = FVal.fin c := rfl
    rw [hof1, hof2, hdiv]
    rfl

/-- Witness for C3: a constant series of seven loads 10 gives the exact ratio
1; with only two rows chronic is undefined and `acwr` is 0; with seven all-zero
loads chronic is zero and `acwr` is 0. -/
theorem c3_acwr_witness :
    acwr [10, 10, 10, 10, 10, 10, 10] 6 = FVal.fin 1 ∧
    acwr [10, 10] 1 = FVal.fin 0 ∧
    acwr [0, 0, 0, 0, 0, 0, 0] 6 = FVal.fin 0 := by
  refine ⟨?_, ?_, ?_⟩
  · have hac : acute_load_7d [10, 10, 10, 10, 10, 10, 10] 6 = some 10 := by
      have h : acute_load_7d [10, 10, 10, 10, 10, 10, 10] 6 =
          some (([(10 : ℚ), 10, 10, 10, 10, 10, 10]).sum / ((7 : ℕ) : ℚ)) := rfl
      rw [h]
      norm_num [List.sum_cons, List.sum_nil]
    have hch : chronic_load_28d [10, 10, 10, 10, 10, 10, 10] 6 = some 10 := by
      have h : chronic_load_28d [10, 10, 10, 10, 10, 10, 10] 6 =
          some (([(10 : ℚ), 10, 10, 10, 10, 10, 10]).sum / ((7 : ℕ) : ℚ)) := rfl
      rw [h]
      norm_num [List.sum_cons, List.sum_nil]
    have h := (c3_acwr_zero_when_chronic_missing [10, 10, 10, 10, 10, 10, 10] 6
        (by norm_num)).2.2 10 10 hac hch (by norm_num)
    rw [h]
    norm_num
  · exact (c3_acwr_zero_when_chronic_missing [10, 10] 1 (by norm_num)).1 rfl
  · have hch : chronic_load_28d [0, 0, 0, 0, 0, 0, 0] 6 = some 0 := by
      have h : chronic_load_28d [0, 0, 0, 0, 0, 0, 0] 6 =
          some (([(0 : ℚ), 0, 0, 0, 0, 0, 0]).sum / ((7 : ℕ) : ℚ)) := rfl
      rw [h]
      norm_num [List.sum_cons, List.sum_nil]
    exact (c3_acwr_zero_when_chronic_missing [0, 0, 0, 0, 0, 0, 0] 6
        (by norm_num)).2.1 (by decide) hch

/-! ## Personal records (P5_Personal_Records.py calculate_personal_records_detailed)

`process_general_activities_df` ends with `sort_values(by="date")` followed by
`reset_index(drop=True)`, so the running activities arrive in ascending date
order.  Each criterion filters candidates and selects with `idxmin` /
`idxmax`, and pandas `idxmin` returns the FIRST row attaining the extremum in
index order — on the date-sorted frame, the earliest-dated one. -/

structure RunAct where
  date : ℤ
  distance_km : Option ℚ
  pace_min_per_km : Option ℚ
  maxSpeed : Option ℚ
  maxPower : Option ℚ
  elevationGain : Option ℚ
  vo2MaxValue_activity : Option ℚ
deriving DecidableEq

def runLE (a b : RunAct) : Prop := a.date ≤ b.date

instance : DecidableRel runLE := fun a b => inferInstanceAs (Decidable (a.date ≤ b.date))

instance : IsTotal RunAct runLE := ⟨fun a b => le_total a.date b.date⟩

instance : IsTrans RunAct runLE := ⟨fun _ _ _ => le_trans⟩

def sortByDate (acts : List RunAct) : List RunAct := List.insertionSort runLE acts

/-- pandas `idxmin`: the first pair attaining the minimal second component. -/
def firstMin : List (ℤ × ℚ) → Option (ℤ × ℚ)
  | [] => none
  | c :: rest =>
    match firstMin rest with
    | none => some c
    | some b => if b.2 < c.2 then some b else some c

/-- pandas `idxmax`: the first pair attaining the maximal second component. -/
def firstMax : List (ℤ × ℚ) → Option (ℤ × ℚ)
  | [] => none
  | c :: rest =>
    match firstMax rest with
    | none => some c
    | some b => if c.2 < b.2 then some b else some c

lemma firstMin_eq_none_iff (l : List (ℤ × ℚ)) : firstMin l = none ↔ l = [] := by
  cases l with
  | nil => simp [firstMin]
  | cons c rest =>
    simp only [firstMin]
    cases h : firstMin rest with
    | none => simp [h]
    | some b =>
      simp only [h]
      split_ifs <;> simp

lemma firstMax_eq_none_iff (l : List (ℤ × ℚ)) : firstMax l = none ↔ l = [] := by
  cases l with
  | nil => simp [firstMax]
  | cons c rest =>
    simp only [firstMax]
    cases h : firstMax rest with
    | none => simp [h]
    | some b =>
      simp only [h]
      split_ifs <;> simp

lemma firstMin_mem (l : List (ℤ × ℚ)) : ∀ c, firstMin l = some c → c ∈ l := by
  induction l with
  | nil =>
    intro c h
    simp [firstMin] at h
  | cons a rest ih =>
    intro c h
    simp only [firstMin] at h
    cases hf : firstMin rest with
    | none =>
      simp only [hf] at h
      rw [Option.some_inj] at h
      rw [← h]
      exact List.mem_cons_self a rest
    | some b =>
      simp only [hf] at h
      split_ifs at h with hb
      · rw [Option.some_inj] at h
        rw [← h]
        exact List.mem_cons_of_mem a (ih b hf)
      · rw [Option.some_inj] at h
        rw [← h]
        exact List.mem_cons_self a rest
  
lemma firstMax_mem (l : List (ℤ × ℚ)) : ∀ c, firstMax l = some c → c ∈ l := by
  induction l with
  | nil =>
    intro c h
    simp [firstMax] at h
  | cons a rest ih =>
    intro c h
    simp only [firstMax] at h
    cases hf : firstMax rest with
    | none =>
      simp only [hf] at h
      rw [Option.some_inj] at h
      rw [← h]
      exact List.mem_cons_self a rest
    | some b =>
      simp only [hf] at h
      split_ifs at h with hb
      · rw [Option.some_inj] at h
        rw [← h]
        exact List.mem_cons_of_mem a (ih b hf)
      · rw [Option.some_inj] at h
        rw [← h]
        exact List.mem_cons_self a rest

lemma firstMin_le (l : List (ℤ × ℚ)) : ∀ c, firstMin l = some c →
    ∀ x ∈ l, c.2 ≤ x.2 := by
  induction l with
  | nil =>
    intro c h
    simp [firstMin] at h
  | cons a rest ih =>
    intro c h
    simp only [firstMin] at h
    cases hf : firstMin rest with
    | none =>
      simp only [hf] at h
      rw [Option.some_inj] at h
      have hrest : rest = [] := (firstMin_eq_none_iff rest).mp hf
      subst hrest
      intro x hx
      rcases List.mem_cons.mp hx with rfl | hx2
      · rw [← h]
      · simp at hx2
    | some b =>
      simp only [hf] at h
      intro x hx
      rcases List.mem_cons.mp hx with rfl | hx2
      · split_ifs at h with hb
        · rw [Option.some_inj] at h
          rw [← h]
          exact le_of_lt hb
        · rw [Option.some_inj] at h
          rw [← h]
      · split_ifs at h with hb
        · rw [Option.some_inj] at h
          rw [← h]
          exact ih b hf x hx2
        · rw [Option.some_inj] at h
          rw [← h]
          push_neg at hb
          exact le_trans hb (ih b hf x hx2)

lemma firstMax_ge (l : List (ℤ × ℚ)) : ∀ c, firstMax l = some c →
    ∀ x ∈ l, x.2 ≤ c.2 := by
  induction l with
  | nil =>
    intro c h
    simp [firstMax] at h
  | cons a rest ih =>
    intro c h
    simp only [firstMax] at h
    cases hf : firstMax rest with
    | none =>
      simp only [hf] at h
      rw [Option.some_inj] at h
      have hrest : rest = [] := (firstMax_eq_none_iff rest).mp hf
      subst hrest
      intro x hx
      rcases List.mem_cons.mp hx with rfl | hx2
      · rw [← h]
      · simp at hx2
    | some b =>
      simp only [hf] at h
      intro x hx
      rcases List.mem_cons.mp hx with rfl | hx2
      · split_ifs at h with hb
        · rw [Option.some_inj] at h
          rw [← h]
          exact le_of_lt hb
        · rw [Option.some_inj] at h
          rw [← h]
      · split_ifs at h with hb
        · rw [Option.some_inj] at h
          rw [← h]
          exact ih b hf x hx2
        · rw [Option.some_inj] at h
          rw [← h]
          push_neg at hb
          exact le_trans (ih b hf x hx2) hb

lemma firstMin_tie_earliest (l : List (ℤ × ℚ)) :
    l.Pairwise (fun p q => p.1 ≤ q.1) → ∀ c, firstMin l = some c →
    ∀ x ∈ l, x.2 = c.2 → c.1 ≤ x.1 := by
  induction l with
  | nil =>
    intro _ c h
    simp [firstMin] at h
  | cons a rest ih =>
    intro hs c h
    rw [List.pairwise_cons] at hs
    obtain ⟨hhead, htail⟩ := hs
    simp only [firstMin] at h
    cases hf : firstMin rest with
    | none =>
      simp only [hf] at h
      rw [Option.some_inj] at h
      have hrest : rest = [] := (firstMin_eq_none_iff rest).mp hf
      subst hrest
      intro x hx
      rcases List.mem_cons.mp hx with rfl | hx2
      · intro _
        rw [← h]
      · simp at hx2
    | some b =>
      simp only [hf] at h
      split_ifs at h with hb
      · rw [Option.some_inj] at h
        subst h
        intro x hx hxv
        rcases List.mem_cons.mp hx with rfl | hx2
        · exact absurd (hxv ▸ hb) (lt_irrefl _)
        · exact ih htail b hf x hx2 hxv
      · rw [Option.some_inj] at h
        subst h
        intro x hx _
        rcases List.mem_cons.mp hx with rfl | hx2
        · exact le_refl _
        · exact hhead x hx2

lemma pairwise_fst_filterMap (f : RunAct → Option (ℤ × ℚ))
    (hf : ∀ a p, f a = some p → p.1 = a.date)
    (l : List RunAct) (hl : l.Pairwise runLE) :
    (l.filterMap f).Pairwise (fun p q : ℤ × ℚ => p.1 ≤ q.1) := by
  induction l with
  | nil => simp
  | cons a t ih =>
    rw [List.pairwise_cons] at hl
    obtain ⟨hhead, htail⟩ := hl
    rw [List.filterMap_cons]
    cases hfa : f a with
    | none => exact ih htail
    | some p =>
      rw [List.pairwise_cons]
      refine ⟨?_, ih htail⟩
      intro q hq
      obtain ⟨b, hb, hfb⟩ := List.mem_filterMap.mp hq
      rw [hf a p hfa, hf b q hfb]
      exact hhead b hb

/-! Fastest-pace-by-distance-band criterion (P5_Personal_Records.py lines
136-148): candidates are the running activities whose distance lies in the
band and whose pace is a positive number; the best row is
`candidates.loc[candidates["pace_min_per_km"].idxmin()]`. -/

def paceCand (lo hi : ℚ) (a : RunAct) : Option (ℤ × ℚ) :=
  match a.distance_km, a.pace_min_per_km with
  | some dk, some p =>
    if lo ≤ dk ∧ dk ≤ hi ∧ 0 < p then some (a.date, p) else none
  | _, _ => none

def fastestPaceRecord (lo hi : ℚ) (acts : List RunAct) : Option (ℤ × ℚ) :=
  firstMin ((sortByDate acts).filterMap (paceCand lo hi))

lemma paceCand_fst (lo hi : ℚ) (a : RunAct) (q : ℤ × ℚ)
    (h : paceCand lo hi a = some q) : q.1 = a.date := by
  cases hdk : a.distance_km with
  | none => simp [paceCand, hdk] at h
  | some dk =>
    cases hp : a.pace_min_per_km with
    | none => simp [paceCand, hdk, hp] at h
    | some p =>
      simp only [paceCand, hdk, hp] at h
      split_ifs at h with hc
      rw [Option.some_inj] at h
      rw [← h]

/-- Claim C4: the selected personal record attains the extremal value, and
among all candidates sharing that exact extremal value its date is the
earliest — the selection is by first-minimum over the date-sorted frame, so
it does not depend on the incidental ordering of the raw input. -/
theorem c4_record_tie_break_earliest (lo hi : ℚ) (acts : List RunAct) (d : ℤ) (v : ℚ)
    (h : fastestPaceRecord lo hi acts = some (d, v)) :
    (∃ a ∈ acts, a.date = d ∧ paceCand lo hi a = some (d, v)) ∧
    (∀ a ∈ acts, ∀ q, paceCand lo hi a = some q → v ≤ q.2) ∧
    (∀ a ∈ acts, ∀ q, paceCand lo hi a = some q → q.2 = v → d ≤ q.1) := by
  have hperm := List.perm_insertionSort runLE acts
  have hmem := firstMin_mem _ _ h
  obtain ⟨a, ha, hfa⟩ := List.mem_filterMap.mp hmem
  have hsorted : (sortByDate acts).Pairwise runLE := List.sorted_insertionSort runLE acts
  have hpw := pairwise_fst_filterMap (paceCand lo hi) (paceCand_fst lo hi) _ hsorted
  refine ⟨?_, ?_, ?_⟩
  · refine ⟨a, hperm.mem_iff.mp ha, ?_, hfa⟩
    have := paceCand_fst lo hi a (d, v) hfa
    exact this.symm
  · intro a2 ha2 q hq
    have hqmem : q ∈ (sortByDate acts).filterMap (paceCand lo hi) :=
      List.mem_filterMap.mpr ⟨a2, hperm.mem_iff.mpr ha2, hq⟩
    exact firstMin_le _ _ h q hqmem
  · intro a2 ha2 q hq hqv
    have hqmem : q ∈ (sortByDate acts).filterMap (paceCand lo hi) :=
      List.mem_filterMap.mpr ⟨a2, hperm.mem_iff.mpr ha2, hq⟩
    exact firstMin_tie_earliest _ hpw _ h q hqmem hqv

/-- Witness for C4: two runs with the same distance 10 km and the same pace 5,
listed with the later date first; the record is the one dated 3. -/
theorem c4_record_tie_break_witness :
    (∃ a ∈ [(⟨5, some 10, some 5, none, none, none, none⟩ : RunAct),
            ⟨3, some 10, some 5, none, none, none, none⟩],
        a.date = 3 ∧ paceCand 5 15 a = some (3, 5)) ∧
    (∀ a ∈ [(⟨5, some 10, some 5, none, none, none, none⟩ : RunAct),
            ⟨3, some 10, some 5, none, none, none, none⟩],
        ∀ q, paceCand 5 15 a = some q → 5 ≤ q.2) ∧
    (∀ a ∈ [(⟨5, some 10, some 5, none, none, none, none⟩ : RunAct),
            ⟨3, some 10, some 5, none, none, none, none⟩],
        ∀ q, paceCand 5 15 a = some q → q.2 = 5 → 3 ≤ q.1) :=
  c4_record_tie_break_earliest 5 15 _ 3 5 (by decide)

/-! ## General running milestones (P5_Personal_Records.py lines 201-228)

`general_milestone_config` filters each column to non-null values and — only
when the entry carries `positive_only: True` — additionally to values > 0.
`maxSpeed`, `maxPower` and `vo2MaxValue_activity` carry the flag; `Longest
Run` (`distance_km`) and `Max Elevation Gain (Run)` (`elevationGain`) do not.
The speed record is displayed after multiplying by 3.6 (m/s to km/h). -/

def milestoneCand (get : RunAct → Option ℚ) (posOnly : Bool) (a : RunAct) :
    Option (ℤ × ℚ) :=
  match get a with
  | some v =>
    match posOnly with
    | true => if 0 < v then some (a.date, v) else none
    | false => some (a.date, v)
  | none => none

def generalMilestone (get : RunAct → Option ℚ) (posOnly : Bool)
    (acts : List RunAct) : Option (ℤ × ℚ) :=
  firstMax ((sortByDate acts).filterMap (milestoneCand get posOnly))

def fastestSpeedRecord (acts : List RunAct) : Option (ℤ × ℚ) :=
  (generalMilestone (fun a => a.maxSpeed) true acts).map (fun p => (p.1, p.2 * (18 / 5)))

def peakPowerRecord (acts : List RunAct) : Option (ℤ × ℚ) :=
  generalMilestone (fun a => a.maxPower) true acts

def longestRunRecord (acts : List RunAct) : Option (ℤ × ℚ) :=
  generalMilestone (fun a => a.distance_km) false acts

def maxElevationRecord (acts : List RunAct) : Option (ℤ × ℚ) :=
  generalMilestone (fun a => a.elevationGain) false acts

def highestVo2Record (acts : List RunAct) : Option (ℤ × ℚ) :=
  generalMilestone (fun a => a.vo2MaxValue_activity) true acts

/-- Transcribed from the specification wording: the elevation-gain milestone
is filtered to strictly positive values before ranking. -/
def spec_maxElevationRecord (acts : List RunAct) : Option (ℤ × ℚ) :=
  generalMilestone (fun a => a.elevationGain) true acts

def nonnegCand (get : RunAct → Option ℚ) (a : RunAct) : Option (ℤ × ℚ) :=
  match get a with
  | some v => if 0 ≤ v then some (a.date, v) else none
  | none => none

/-- Transcribed from the specification wording: the longest-run milestone
accepts distance greater than or equal to 0. -/
def spec_longestRunRecord (acts : List RunAct) : Option (ℤ × ℚ) :=
  firstMax ((sortByDate acts).filterMap (nonnegCand (fun a => a.distance_km)))

/-- Counterexample to claim C8: a single running activity with recorded
distance -1 km and elevation gain -5 m.  The code has no sign filter on these
two columns, so it emits a Longest Run record of -1 and an elevation record
of -5, while the claimed filters (positive elevation, distance at least 0)
would emit no record at all. -/
theorem c8_counterexample :
    maxElevationRecord [(⟨0, some (-1), none, none, none, some (-5), none⟩ : RunAct)]
        = some (0, -5) ∧
    spec_maxElevationRecord [(⟨0, some (-1), none, none, none, some (-5), none⟩ : RunAct)]
        = none ∧
    longestRunRecord [(⟨0, some (-1), none, none, none, some (-5), none⟩ : RunAct)]
        = some (0, -1) ∧
    spec_longestRunRecord [(⟨0, some (-1), none, none, none, some (-5), none⟩ : RunAct)]
        = none := by
  decide

lemma milestoneCand_elim (get : RunAct → Option ℚ) (posOnly : Bool) (a : RunAct)
    (q : ℤ × ℚ) (h : milestoneCand get posOnly a = some q) :
    get a = some q.2 ∧ q.1 = a.date ∧ (posOnly = true → 0 < q.2) := by
  cases hg : get a with
  | none => simp [milestoneCand, hg] at h
  | some v =>
    cases posOnly with
    | false =>
      simp only [milestoneCand, hg] at h
      rw [Option.some_inj] at h
      rw [← h]
      exact ⟨rfl, rfl, by simp⟩
    | true =>
      simp only [milestoneCand, hg] at h
      split_ifs at h with hv
      rw [Option.some_inj] at h
      rw [← h]
      exact ⟨rfl, rfl, fun _ => hv⟩

lemma milestoneCand_intro (get : RunAct → Option ℚ) (posOnly : Bool) (a : RunAct)
    (w : ℚ) (hg : get a = some w) (hpos : posOnly = true → 0 < w) :
    milestoneCand get posOnly a = some (a.date, w) := by
  cases posOnly with
  | false => simp [milestoneCand, hg]
  | true => simp [milestoneCand, hg, if_pos (hpos rfl)]

lemma generalMilestone_elim (get : RunAct → Option ℚ) (posOnly : Bool)
    (acts : List RunAct) (d : ℤ) (v : ℚ)
    (h : generalMilestone get posOnly acts = some (d, v)) :
    (∃ a ∈ acts, a.date = d ∧ get a = some v ∧ (posOnly = true → 0 < v)) ∧
    (∀ a ∈ acts, ∀ w, get a = some w → (posOnly = true → 0 < w) → w ≤ v) := by
  have hperm := List.perm_insertionSort runLE acts
  have hmem := firstMax_mem _ _ h
  obtain ⟨a, ha, hfa⟩ := List.mem_filterMap.mp hmem
  obtain ⟨hg, hd, hp⟩ := milestoneCand_elim get posOnly a (d, v) hfa
  refine ⟨⟨a, hperm.mem_iff.mp ha, hd.symm, hg, hp⟩, ?_⟩
  intro b hb w hw hwpos
  have hq : milestoneCand get posOnly b = some (b.date, w) :=
    milestoneCand_intro get posOnly b w hw hwpos
  have hqmem : (b.date, w) ∈ (sortByDate acts).filterMap (milestoneCand get posOnly) :=
    List.mem_filterMap.mpr ⟨b, hperm.mem_iff.mpr hb, hq⟩
  exact firstMax_ge _ _ h (b.date, w) hqmem

lemma generalMilestone_isSome_of_present (get : RunAct → Option ℚ)
    (acts : List RunAct) (h : ∃ a ∈ acts, (get a).isSome = true) :
    (generalMilestone get false acts).isSome = true := by
  obtain ⟨a, ha, hga⟩ := h
  obtain ⟨w, hw⟩ := Option.isSome_iff_exists.mp hga
  have hperm := List.perm_insertionSort runLE acts
  have hq : milestoneCand get false a = some (a.date, w) :=
    milestoneCand_intro get false a w hw (by simp)
  have hqmem : (a.date, w) ∈ (sortByDate acts).filterMap (milestoneCand get false) :=
    List.mem_filterMap.mpr ⟨a, hperm.mem_iff.mpr ha, hq⟩
  cases hfm : firstMax ((sortByDate acts).filterMap (milestoneCand get false)) with
  | none =>
    have := (firstMax_eq_none_iff _).mp hfm
    rw [this] at hqmem
    simp at hqmem
  | some c =>
    simp [generalMilestone, hfm]

/-- Claim C8 (amended): max speed (converted to km/h by 3.6 = 18/5), max
power and max VO2max are selected after filtering candidates to strictly
positive values; the longest-run and max-elevation-gain milestones have NO
sign filter — they accept every non-missing value, including 0 and negative
values, and produce a record whenever any activity has the field present. -/
theorem c8_milestone_filters (acts : List RunAct) :
    (∀ d u, fastestSpeedRecord acts = some (d, u) →
      ∃ a ∈ acts, ∃ s, a.maxSpeed = some s ∧ 0 < s ∧ a.date = d ∧ u = s * (18 / 5) ∧
        ∀ b ∈ acts, ∀ t, b.maxSpeed = some t → 0 < t → t ≤ s) ∧
    (∀ d v, peakPowerRecord acts = some (d, v) →
      0 < v ∧ ∀ b ∈ acts, ∀ t, b.maxPower = some t → 0 < t → t ≤ v) ∧
    (∀ d v, highestVo2Record acts = some (d, v) →
      0 < v ∧ ∀ b ∈ acts, ∀ t, b.vo2MaxValue_activity = some t → 0 < t → t ≤ v) ∧
    (∀ d v, longestRunRecord acts = some (d, v) →
      (∃ a ∈ acts, a.distance_km = some v) ∧
        ∀ b ∈ acts, ∀ t, b.distance_km = some t → t ≤ v) ∧
    ((∃ a ∈ acts, (a.distance_km).isSome = true) →
      (longestRunRecord acts).isSome = true) ∧
    (∀ d v, maxElevationRecord acts = some (d, v) →
      (∃ a ∈ acts, a.elevationGain = some v) ∧
        ∀ b ∈ acts, ∀ t, b.elevationGain = some t → t ≤ v) ∧
    ((∃ a ∈ acts, (a.elevationGain).isSome = true) →
      (maxElevationRecord acts).isSome = true) := by
  refine ⟨?_, ?_, ?_, ?_, ?_, ?_, ?_⟩
  · intro d u hu
    unfold fastestSpeedRecord at hu
    obtain ⟨p, hp, hpu⟩ := Option.map_eq_some'.mp hu
    obtain ⟨pd, pv⟩ := p
    have h1 := congrArg Prod.fst hpu
    have h2 := congrArg Prod.snd hpu
    simp only at h1 h2
    subst h1
    obtain ⟨⟨a, ha, had, hg, hpos⟩, hmax⟩ :=
      generalMilestone_elim (fun a => a.maxSpeed) true acts pd pv hp
    refine ⟨a, ha, pv, hg, hpos rfl, had, h2.symm, ?_⟩
    intro b hb t hbt htpos
    exact hmax b hb t hbt (fun _ => htpos)
  · intro d v hv
    obtain ⟨⟨a, ha, had, hg, hpos⟩, hmax⟩ :=
      generalMilestone_elim (fun a => a.maxPower) true acts d v hv
    exact ⟨hpos rfl, fun b hb t hbt htpos => hmax b hb t hbt (fun _ => htpos)⟩
  · intro d v hv
    obtain ⟨⟨a, ha, had, hg, hpos⟩, hmax⟩ :=
      generalMilestone_elim (fun a => a.vo2MaxValue_activity) true acts d v hv
    exact ⟨hpos rfl, fun b hb t hbt htpos => hmax b hb t hbt (fun _ => htpos)⟩
  · intro d v hv
    obtain ⟨⟨a, ha, had, hg, _⟩, hmax⟩ :=
      generalMilestone_elim (fun a => a.distance_km) false acts d v hv
    exact ⟨⟨a, ha, hg⟩, fun b hb t hbt => hmax b hb t hbt (by simp)⟩
  · intro hex
    exact generalMilestone_isSome_of_present (fun a => a.distance_km) acts hex
  · intro d v hv
    obtain ⟨⟨a, ha, had, hg, _⟩, hmax⟩ :=
      generalMilestone_elim (fun a => a.elevationGain) false acts d v hv
    exact ⟨⟨a, ha, hg⟩, fun b hb t hbt => hmax b hb t hbt (by simp)⟩
  · intro hex
    exact generalMilestone_isSome_of_present (fun a => a.elevationGain) acts hex

/-- Witness for C8: an activity with max speed 10 m/s (record 36 km/h) and a
negative elevation gain of -5, which still yields an elevation record. -/
theorem c8_milestone_witness :
    (∃ a ∈ [(⟨0, some 10, none, some 10, some 200, some (-5), some 50⟩ : RunAct)],
      ∃ s, a.maxSpeed = some s ∧ 0 < s ∧ a.date = 0 ∧ (36 : ℚ) = s * (18 / 5) ∧
        ∀ b ∈ [(⟨0, some 10, none, some 10, some 200, some (-5), some 50⟩ : RunAct)],
          ∀ t, b.maxSpeed = some t → 0 < t → t ≤ s) ∧
    (maxElevationRecord
        [(⟨0, some 10, none, some 10, some 200, some (-5), some 50⟩ : RunAct)]).isSome
      = true := by
  constructor
  · refine (c8_milestone_filters _).1 0 36 ?_
    have h0 : generalMilestone (fun a => a.maxSpeed) true
        [(⟨0, some 10, none, some 10, some 200, some (-5), some 50⟩ : RunAct)]
        = some (0, 10) := by decide
    unfold fastestSpeedRecord
    rw [h0]
    have h36 : (10 : ℚ) * (18 / 5) = 36 := by norm_num
    simp [h36]
  · exact (c8_milestone_filters _).2.2.2.2.2.2 (by decide)

/-! ## Time-in-zone aggregation by period

Two call sites aggregate per-zone minutes weekly.
`data_processing.calculate_hr_zone_distribution` (lines 150-151) uses
`resample(period).sum()` with the caller passing `period="W"`
(2_Running_performance.py line 51): pandas `"W"` weeks END on Sunday and the
bins are right-closed and right-labeled, so every activity is labeled by the
Sunday that closes its week.  `P2_Running_performance.py` lines 182-184
instead use `resample("W-MON", label="left", closed="left")`: Monday-anchored
bins, left-closed, labeled by their Monday.  Dates are days since an epoch
Monday (day 0 is a Monday, e.g. 2024-01-01), so a label is a Monday iff it is
0 mod 7.  `resample(...).sum()` materialises every bin between the first and
the last label, summing an empty bin to zero.

The monthly radio choice at the same sites (P2_Running_performance.py line
171, P0_Dashboard_Summary.py lines 105 and 170) resamples with
`("ME", label="left", closed="left")`.  Pandas `"ME"` bin edges are calendar
month-end days; with `closed="left"` each bin is the half-open interval from
one month end (inclusive) up to the next month end (exclusive), and with
`label="left"` it is labeled by its LEFT edge.  So an activity is labeled by
the latest calendar month end at or before its date: a mid-month activity
carries the end of the PREVIOUS month as its label, and an activity on a
month-end day opens the next bucket, grouped with the following month's
non-final days.  The bins span from the label of the earliest date to the
label of the latest date, and empty bins sum to zero.

For the monthly path a date is embedded as a calendar pair: `month` is the
month index relative to January 2024 (month 0 = 2024-01, month -1 = 2023-12)
and `dayOfMonth` is the 1-based day inside it; `daysInMonth` encodes the
Gregorian month lengths including the leap rule, so the month end of month m
is the day `(m, daysInMonth m)`.  A bucket label L stands for the calendar
month-end day of month L. -/

structure ZAct where
  date : ℤ
  zones : ZoneMinutes
deriving DecidableEq

def weekMonLabel (d : ℤ) : ℤ := d - d % 7

def weekSunLabel (d : ℤ) : ℤ := d + (6 - d % 7)

def sumZones (l : List ZAct) : ZoneMinutes :=
  l.foldr (fun a acc => ZoneMinutes.add a.zones acc) ZoneMinutes.zero

def minDate : List ZAct → ℤ
  | [] => 0
  | a :: rest => rest.foldr (fun b m => min b.date m) a.date

def maxDate : List ZAct → ℤ
  | [] => 0
  | a :: rest => rest.foldr (fun b m => max b.date m) a.date

def weeklyBuckets (label : ℤ → ℤ) (acts : List ZAct) : List (ℤ × ZoneMinutes) :=
  if acts.isEmpty then []
  else
    (List.range (((label (maxDate acts) - label (minDate acts)) / 7).toNat + 1)).map
      (fun k : ℕ =>
        (label (minDate acts) + 7 * (k : ℤ),
         sumZones (acts.filter
           (fun a => decide (label a.date = label (minDate acts) + 7 * (k : ℤ))))))

def calculate_hr_zone_distribution (acts : List ZAct) : List (ℤ × ZoneMinutes) :=
  weeklyBuckets weekSunLabel acts

def time_in_zones_over_time (acts : List ZAct) : List (ℤ × ZoneMinutes) :=
  weeklyBuckets weekMonLabel acts

/-- Gregorian length of the month with index m relative to January 2024:
February has 28 days plus one in leap years (divisible by 4 and not by 100,
or divisible by 400); April, June, September and November have 30; the rest
have 31. -/
def daysInMonth (m : ℤ) : ℤ :=
  if m % 12 = 1 then
    28 + (if (2024 + m / 12) % 4 = 0 ∧
             ((2024 + m / 12) % 100 ≠ 0 ∨ (2024 + m / 12) % 400 = 0) then 1 else 0)
  else if m % 12 = 3 ∨ m % 12 = 5 ∨ m % 12 = 8 ∨ m % 12 = 10 then 30
  else 31

structure MAct where
  month : ℤ
  dayOfMonth : ℤ
  zones : ZoneMinutes
deriving DecidableEq

/-- The pandas `("ME", label="left", closed="left")` label of a date, as a
month index: the latest calendar month end at or before the date is the end
of the own month when the date IS that month end, else the end of the
previous month. -/
def bucketMonth (a : MAct) : ℤ :=
  if a.dayOfMonth = daysInMonth a.month then a.month else a.month - 1

def sumZonesM (l : List MAct) : ZoneMinutes :=
  l.foldr (fun a acc => ZoneMinutes.add a.zones acc) ZoneMinutes.zero

def minLabelM (label : MAct → ℤ) : List MAct → ℤ
  | [] => 0
  | a :: rest => rest.foldr (fun b m => min (label b) m) (label a)

def maxLabelM (label : MAct → ℤ) : List MAct → ℤ
  | [] => 0
  | a :: rest => rest.foldr (fun b m => max (label b) m) (label a)

def monthlyBucketsBy (label : MAct → ℤ) (macts : List MAct) :
    List (ℤ × ZoneMinutes) :=
  if macts.isEmpty then []
  else
    (List.range ((maxLabelM label macts - minLabelM label macts).toNat + 1)).map
      (fun k : ℕ =>
        (minLabelM label macts + (k : ℤ),
         sumZonesM (macts.filter
           (fun a => decide (label a = minLabelM label macts + (k : ℤ))))))

def monthly_time_in_zones (macts : List MAct) : List (ℤ × ZoneMinutes) :=
  monthlyBucketsBy bucketMonth macts

/-- Transcribed from the specification wording for monthly aggregation:
calendar-month-end buckets, i.e. each activity belongs to the bucket of its
OWN calendar month, labeled by that month's end. -/
def spec_monthly_time_in_zones (macts : List MAct) : List (ℤ × ZoneMinutes) :=
  monthlyBucketsBy (fun a => a.month) macts

/-- Counterexample to claim C7, weekly and monthly.  Weekly: one activity on
day 1 (a Tuesday); the `calculate_hr_zone_distribution` call site labels its
only weekly bucket with day 6 — the following SUNDAY, right-closed and
right-labeled — which is not a Monday (6 mod 7 is nonzero), while the P2 call
site labels it with the Monday day 0 as the claim describes.  Monthly: an
activity on 2024-01-05 (month 0, day 5) is labeled by month -1 — the
2023-12-31 month end — not by its own calendar month end as the claim says;
and 2024-01-31 (the January month end) lands in the SAME bucket as
2024-02-01, although they belong to different calendar months, while the
calendar-month-end reading yields two buckets. -/
theorem c7_counterexample :
    (calculate_hr_zone_distribution [⟨1, ⟨10, 0, 0, 0, 0⟩⟩]).map Prod.fst = [6] ∧
    (6 : ℤ) % 7 ≠ 0 ∧
    (time_in_zones_over_time [⟨1, ⟨10, 0, 0, 0, 0⟩⟩]).map Prod.fst = [0] ∧
    (0 : ℤ) % 7 = 0 ∧
    (monthly_time_in_zones [⟨0, 5, ⟨10, 0, 0, 0, 0⟩⟩]).map Prod.fst = [-1] ∧
    (spec_monthly_time_in_zones [⟨0, 5, ⟨10, 0, 0, 0, 0⟩⟩]).map Prod.fst = [0] ∧
    (-1 : ℤ) ≠ 0 ∧
    (monthly_time_in_zones
      [⟨0, 31, ⟨10, 0, 0, 0, 0⟩⟩, ⟨1, 1, ⟨0, 20, 0, 0, 0⟩⟩]).map Prod.fst = [0] ∧
    (spec_monthly_time_in_zones
      [⟨0, 31, ⟨10, 0, 0, 0, 0⟩⟩, ⟨1, 1, ⟨0, 20, 0, 0, 0⟩⟩]).map Prod.fst = [0, 1] := by
  decide

lemma weekMonLabel_mod (d : ℤ) : weekMonLabel d % 7 = 0 := by
  unfold weekMonLabel
  omega

lemma weekMonLabel_eq_iff (d L : ℤ) (hL : L % 7 = 0) :
    weekMonLabel d = L ↔ L ≤ d ∧ d < L + 7 := by
  unfold weekMonLabel
  omega

lemma weekMonLabel_mono (a b : ℤ) (h : a ≤ b) : weekMonLabel a ≤ weekMonLabel b := by
  unfold weekMonLabel
  omega

lemma foldr_min_le_init (x : ℤ) (l : List ZAct) :
    l.foldr (fun b m => min b.date m) x ≤ x := by
  induction l with
  | nil => exact le_refl x
  | cons b t ih =>
    exact le_trans (min_le_right _ _) ih

lemma foldr_min_le_mem (x : ℤ) (l : List ZAct) (b : ZAct) (hb : b ∈ l) :
    l.foldr (fun c m => min c.date m) x ≤ b.date := by
  induction l with
  | nil => simp at hb
  | cons c t ih =>
    rcases List.mem_cons.mp hb with rfl | hb2
    · exact min_le_left _ _
    · exact le_trans (min_le_right _ _) (ih hb2)

lemma foldr_max_init_le (x : ℤ) (l : List ZAct) :
    x ≤ l.foldr (fun b m => max b.date m) x := by
  induction l with
  | nil => exact le_refl x
  | cons b t ih =>
    exact le_trans ih (le_max_right _ _)

lemma foldr_max_mem_le (x : ℤ) (l : List ZAct) (b : ZAct) (hb : b ∈ l) :
    b.date ≤ l.foldr (fun c m => max c.date m) x := by
  induction l with
  | nil => simp at hb
  | cons c t ih =>
    rcases List.mem_cons.mp hb with rfl | hb2
    · exact le_max_left _ _
    · exact le_trans (ih hb2) (le_max_right _ _)

lemma minDate_le (acts : List ZAct) (a : ZAct) (ha : a ∈ acts) :
    minDate acts ≤ a.date := by
  cases acts with
  | nil => simp at ha
  | cons b rest =>
    rcases List.mem_cons.mp ha with rfl | ha2
    · exact foldr_min_le_init a.date rest
    · exact foldr_min_le_mem b.date rest a ha2

lemma le_maxDate (acts : List ZAct) (a : ZAct) (ha : a ∈ acts) :
    a.date ≤ maxDate acts := by
  cases acts with
  | nil => simp at ha
  | cons b rest =>
    rcases List.mem_cons.mp ha with rfl | ha2
    · exact foldr_max_init_le a.date rest
    · exact foldr_max_mem_le b.date rest a ha2

lemma minDate_le_maxDate (acts : List ZAct) (h : acts ≠ []) :
    minDate acts ≤ maxDate acts := by
  cases acts with
  | nil => exact absurd rfl h
  | cons a rest =>
    exact le_trans (minDate_le (a :: rest) a (List.mem_cons_self a rest))
      (le_maxDate (a :: rest) a (List.mem_cons_self a rest))

lemma mem_weeklyBuckets (label : ℤ → ℤ) (acts : List ZAct) (hne : acts ≠ [])
    (p : ℤ × ZoneMinutes) :
    p ∈ weeklyBuckets label acts ↔
      ∃ k : ℕ, k ≤ ((label (maxDate acts) - label (minDate acts)) / 7).toNat ∧
        p = (label (minDate acts) + 7 * (k : ℤ),
             sumZones (acts.filter
               (fun a => decide (label a.date = label (minDate acts) + 7 * (k : ℤ))))) := by
  unfold weeklyBuckets
  rw [if_neg (by simpa [List.isEmpty_iff] using hne)]
  rw [List.mem_map]
  constructor
  · rintro ⟨k, hk, heq⟩
    exact ⟨k, Nat.lt_succ_iff.mp (List.mem_range.mp hk), heq.symm⟩
  · rintro ⟨k, hk, heq⟩
    exact ⟨k, List.mem_range.mpr (Nat.lt_succ_of_le hk), heq.symm⟩

lemma mem_monthlyBucketsBy (label : MAct → ℤ) (macts : List MAct) (hne : macts ≠ [])
    (p : ℤ × ZoneMinutes) :
    p ∈ monthlyBucketsBy label macts ↔
      ∃ k : ℕ, k ≤ (maxLabelM label macts - minLabelM label macts).toNat ∧
        p = (minLabelM label macts + (k : ℤ),
             sumZonesM (macts.filter
               (fun a => decide (label a = minLabelM label macts + (k : ℤ))))) := by
  unfold monthlyBucketsBy
  rw [if_neg (by simpa [List.isEmpty_iff] using hne)]
  rw [List.mem_map]
  constructor
  · rintro ⟨k, hk, heq⟩
    exact ⟨k, Nat.lt_succ_iff.mp (List.mem_range.mp hk), heq.symm⟩
  · rintro ⟨k, hk, heq⟩
    exact ⟨k, List.mem_range.mpr (Nat.lt_succ_of_le hk), heq.symm⟩

lemma bucketMonth_eq_iff (a : MAct) (L : ℤ)
    (h2 : a.dayOfMonth ≤ daysInMonth a.month) :
    bucketMonth a = L ↔
      (a.month = L ∧ a.dayOfMonth = daysInMonth L) ∨
      (a.month = L + 1 ∧ a.dayOfMonth < daysInMonth (L + 1)) := by
  unfold bucketMonth
  split_ifs with hd
  · constructor
    · intro hL
      exact Or.inl ⟨hL, hL ▸ hd⟩
    · rintro (⟨hm, _⟩ | ⟨hm, hlt⟩)
      · exact hm
      · exact absurd (hm ▸ hd) (ne_of_lt hlt)
  · constructor
    · intro hL
      have hm : a.month = L + 1 := by omega
      exact Or.inr ⟨hm, hm ▸ lt_of_le_of_ne h2 hd⟩
    · rintro (⟨hm, hdm⟩ | ⟨hm, _⟩)
      · rw [← hm] at hdm
        exact absurd hdm hd
      · omega

/-- Claim C7 (amended): the weekly buckets of `time_in_zones_over_time` (the
P2 call site) are Monday-anchored (every label is 0 mod 7), left-closed and
left-labeled (an activity falls in the bucket labeled L exactly when L is at
or before its date and the date is within the following 7 days), every
Monday label between the first and the last covered week appears in the
result, and a bucket with no qualifying activity carries all-zero zone
minutes; the `calculate_hr_zone_distribution` call site instead produces
Sunday-anchored right-closed right-labeled weekly buckets.  The monthly
buckets of `monthly_time_in_zones` are NOT calendar months labeled by their
own month end: the bucket labeled L holds exactly the month-end day of
calendar month L together with the non-final days of month L + 1 (left-closed
between consecutive month ends, labeled by the left edge), every month label
between the first and the last covered one appears, and an empty monthly
bucket carries all-zero zone minutes. -/
theorem c7_bucket_semantics (acts : List ZAct) (h : acts ≠ [])
    (macts : List MAct) (hmne : macts ≠ [])
    (hv : ∀ a ∈ macts, 1 ≤ a.dayOfMonth ∧ a.dayOfMonth ≤ daysInMonth a.month) :
    (∀ p ∈ time_in_zones_over_time acts, p.1 % 7 = 0) ∧
    (∀ p ∈ time_in_zones_over_time acts,
      p.2 = sumZones (acts.filter (fun a => decide (p.1 ≤ a.date ∧ a.date < p.1 + 7)))) ∧
    (∀ L : ℤ, L % 7 = 0 → weekMonLabel (minDate acts) ≤ L →
      L ≤ weekMonLabel (maxDate acts) → ∃ z, (L, z) ∈ time_in_zones_over_time acts) ∧
    (∀ p ∈ time_in_zones_over_time acts,
      (∀ a ∈ acts, ¬ (p.1 ≤ a.date ∧ a.date < p.1 + 7)) →
        p.2 = ZoneMinutes.zero) ∧
    (∀ p ∈ monthly_time_in_zones macts,
      p.2 = sumZonesM (macts.filter (fun a =>
        decide ((a.month = p.1 ∧ a.dayOfMonth = daysInMonth p.1) ∨
                (a.month = p.1 + 1 ∧ a.dayOfMonth < daysInMonth (p.1 + 1)))))) ∧
    (∀ L : ℤ, minLabelM bucketMonth macts ≤ L → L ≤ maxLabelM bucketMonth macts →
      ∃ z, (L, z) ∈ monthly_time_in_zones macts) ∧
    (∀ p ∈ monthly_time_in_zones macts,
      (∀ a ∈ macts, ¬ ((a.month = p.1 ∧ a.dayOfMonth = daysInMonth p.1) ∨
                       (a.month = p.1 + 1 ∧ a.dayOfMonth < daysInMonth (p.1 + 1)))) →
        p.2 = ZoneMinutes.zero) := by
  have hlomod : weekMonLabel (minDate acts) % 7 = 0 := weekMonLabel_mod _
  have hhimod : weekMonLabel (maxDate acts) % 7 = 0 := weekMonLabel_mod _
  have hfst : ∀ p ∈ time_in_zones_over_time acts, p.1 % 7 = 0 := by
    intro p hp
    obtain ⟨k, hk, hpe⟩ := (mem_weeklyBuckets weekMonLabel acts h p).mp hp
    have h1 := congrArg Prod.fst hpe
    simp only at h1
    omega
  have hval : ∀ p ∈ time_in_zones_over_time acts,
      p.2 = sumZones (acts.filter
        (fun a => decide (p.1 ≤ a.date ∧ a.date < p.1 + 7))) := by
    intro p hp
    have hp1 := hfst p hp
    obtain ⟨k, hk, hpe⟩ := (mem_weeklyBuckets weekMonLabel acts h p).mp hp
    have h1 := congrArg Prod.fst hpe
    have h2 := congrArg Prod.snd hpe
    simp only at h1 h2
    rw [h2]
    have hfe : acts.filter
        (fun a => decide (weekMonLabel a.date =
          weekMonLabel (minDate acts) + 7 * (k : ℤ)))
        = acts.filter (fun a => decide (p.1 ≤ a.date ∧ a.date < p.1 + 7)) := by
      apply List.filter_congr
      intro a _
      rw [decide_eq_decide]
      rw [← h1]
      exact weekMonLabel_eq_iff a.date p.1 hp1
    rw [hfe]
  have hmval : ∀ p ∈ monthly_time_in_zones macts,
      p.2 = sumZonesM (macts.filter (fun a =>
        decide ((a.month = p.1 ∧ a.dayOfMonth = daysInMonth p.1) ∨
                (a.month = p.1 + 1 ∧ a.dayOfMonth < daysInMonth (p.1 + 1))))) := by
    intro p hp
    obtain ⟨k, hk, hpe⟩ := (mem_monthlyBucketsBy bucketMonth macts hmne p).mp hp
    have h1 := congrArg Prod.fst hpe
    have h2 := congrArg Prod.snd hpe
    simp only at h1 h2
    rw [h2]
    have hfe : macts.filter
        (fun a => decide (bucketMonth a = minLabelM bucketMonth macts + (k : ℤ)))
        = macts.filter (fun a =>
            decide ((a.month = p.1 ∧ a.dayOfMonth = daysInMonth p.1) ∨
                    (a.month = p.1 + 1 ∧ a.dayOfMonth < daysInMonth (p.1 + 1)))) := by
      apply List.filter_congr
      intro a ha
      rw [decide_eq_decide]
      rw [← h1]
      exact bucketMonth_eq_iff a p.1 (hv a ha).2
    rw [hfe]
  refine ⟨hfst, hval, ?_, ?_, hmval, ?_, ?_⟩
  · intro L hL hlo hhi
    have hdvd : L = weekMonLabel (minDate acts) +
        7 * ((((L - weekMonLabel (minDate acts)) / 7).toNat : ℤ)) := by
      omega
    refine ⟨sumZones (acts.filter
        (fun a => decide (weekMonLabel a.date =
          weekMonLabel (minDate acts) +
            7 * ((((L - weekMonLabel (minDate acts)) / 7).toNat : ℤ))))),
      (mem_weeklyBuckets weekMonLabel acts h _).mpr
        ⟨((L - weekMonLabel (minDate acts)) / 7).toNat, by omega, ?_⟩⟩
    rw [← hdvd]
  · intro p hp hno
    rw [hval p hp]
    have hfe : acts.filter (fun a => decide (p.1 ≤ a.date ∧ a.date < p.1 + 7)) = [] := by
      rw [List.filter_eq_nil_iff]
      intro a ha
      simpa using hno a ha
    rw [hfe]
    rfl
  · intro L hlo hhi
    have hdvd : L = minLabelM bucketMonth macts +
        (((L - minLabelM bucketMonth macts).toNat : ℤ)) := by
      omega
    refine ⟨sumZonesM (macts.filter
        (fun a => decide (bucketMonth a =
          minLabelM bucketMonth macts +
            (((L - minLabelM bucketMonth macts).toNat : ℤ))))),
      (mem_monthlyBucketsBy bucketMonth macts hmne _).mpr
        ⟨(L - minLabelM bucketMonth macts).toNat, by omega, ?_⟩⟩
    rw [← hdvd]
  · intro p hp hno
    rw [hmval p hp]
    have hfe : macts.filter (fun a =>
        decide ((a.month = p.1 ∧ a.dayOfMonth = daysInMonth p.1) ∨
                (a.month = p.1 + 1 ∧ a.dayOfMonth < daysInMonth (p.1 + 1)))) = [] := by
      rw [List.filter_eq_nil_iff]
      intro a ha
      simpa using hno a ha
    rw [hfe]
    rfl

/-- Witness for C7.  Weekly: activities on days 1 and 15 produce the Monday
labels 0, 7 and 14; the middle bucket, label 7, has no activity and is
all-zero.  Monthly: activities on 2024-01-05 (month 0, day 5) and 2024-04-10
(month 3, day 10) produce the labels -1, 0, 1 and 2; the bucket labeled 0
(month end 2024-01-31 up to, excluding, 2024-02-29) has no activity and is
all-zero. -/
theorem c7_bucket_semantics_witness :
    (∃ z, ((7 : ℤ), z) ∈
      time_in_zones_over_time [⟨1, ⟨10, 0, 0, 0, 0⟩⟩, ⟨15, ⟨0, 20, 0, 0, 0⟩⟩]) ∧
    (∀ p ∈ time_in_zones_over_time [⟨1, ⟨10, 0, 0, 0, 0⟩⟩, ⟨15, ⟨0, 20, 0, 0, 0⟩⟩],
      p.1 = 7 → p.2 = ZoneMinutes.zero) ∧
    (∃ z, ((0 : ℤ), z) ∈
      monthly_time_in_zones [⟨0, 5, ⟨10, 0, 0, 0, 0⟩⟩, ⟨3, 10, ⟨0, 20, 0, 0, 0⟩⟩]) ∧
    ∀ p ∈ monthly_time_in_zones [⟨0, 5, ⟨10, 0, 0, 0, 0⟩⟩, ⟨3, 10, ⟨0, 20, 0, 0, 0⟩⟩],
      p.1 = 0 → p.2 = ZoneMinutes.zero := by
  have h := c7_bucket_semantics
    [⟨1, ⟨10, 0, 0, 0, 0⟩⟩, ⟨15, ⟨0, 20, 0, 0, 0⟩⟩] (by decide)
    [⟨0, 5, ⟨10, 0, 0, 0, 0⟩⟩, ⟨3, 10, ⟨0, 20, 0, 0, 0⟩⟩] (by decide) (by decide)
  refine ⟨?_, ?_, ?_, ?_⟩
  · exact h.2.2.1 7 (by decide) (by decide) (by decide)
  · intro p hp hp7
    refine h.2.2.2.1 p hp ?_
    intro a ha
    rw [hp7]
    rcases List.mem_cons.mp ha with rfl | ha2
    · decide
    · rcases List.mem_cons.mp ha2 with rfl | ha3
      · decide
      · simp at ha3
  · exact h.2.2.2.2.2.1 0 (by decide) (by decide)
  · intro p hp hp0
    refine h.2.2.2.2.2.2 p hp ?_
    intro a ha
    rw [hp0]
    rcases List.mem_cons.mp ha with rfl | ha2
    · decide
    · rcases List.mem_cons.mp ha2 with rfl | ha3
      · decide
      · simp at ha3
